import Mathlib

/-!
Shallow embedding of the bill-upload extraction pipeline of `src/app.py`
(Flask app: PDF text acquisition, completion-oracle call, `Field: Value`
parsing, fallback consumption-history recovery, persistence dispatch).

Strings are modelled as Lean `String`s; character-level processing works on
`String.data : List Char`.  Python's `\s` / `str.strip()` whitespace class is
modelled as the six ASCII whitespace characters; `str.lower()` /
`re.IGNORECASE` as ASCII `Char.toLower`.  Regex scanning (`re.findall`) is
modelled as an explicit left-to-right scanner; functions whose recursion is
not structural take a fuel argument (always called with enough fuel, namely
`length + 1`, so the out-of-fuel branch is unreachable).
-/

namespace BillUpload

/-- ASCII whitespace, the characters matched by Python's `\s` on ASCII text
(space, tab, newline, carriage return, vertical tab, form feed). -/
def isSpace (c : Char) : Bool :=
  c = ' ' || c = '\t' || c = '\n' || c = '\r' || c = '\x0b' || c = '\x0c'

/-- Model of `re.sub(r'\*\*', '', text)` in `clean_text` (src/app.py:80):
removes non-overlapping `**` pairs left to right. -/
def removeStars : List Char → List Char
  | '*' :: '*' :: rest => removeStars rest
  | c :: rest => c :: removeStars rest
  | [] => []

/-- One step of the `(cid:<digits>)` matcher: if `s` starts with
`(cid:` followed by at least one digit and then `)`, return the remainder
after the `)`.  This is exactly where `re.sub(r"\(cid:\d+\)", "", text)`
(src/app.py:81) can match, since after the greedy digit run the pattern
requires a literal `)`. -/
def cidMatch (s : List Char) : Option (List Char) :=
  if "(cid:".data.isPrefixOf s then
    let rest := s.drop 5
    let digits := rest.takeWhile Char.isDigit
    let after := rest.dropWhile Char.isDigit
    if digits = [] then none
    else
      match after with
      | ')' :: r => some r
      | _ => none
  else none

/-- Model of `re.sub(r"\(cid:\d+\)", "", text)` (src/app.py:81), scanning left
to right and skipping matches; fuelled (fuel `length + 1` always suffices,
the fuel-0 branch returns the input unchanged and is never reached). -/
def removeCidF : Nat → List Char → List Char
  | 0, l => l
  | _ + 1, [] => []
  | fuel + 1, c :: cs =>
    match cidMatch (c :: cs) with
    | some r => removeCidF fuel r
    | none => c :: removeCidF fuel cs

/-- Model of `re.sub(r"\(cid:\d+\)", "", text)` (src/app.py:81). -/
def removeCid (l : List Char) : List Char :=
  removeCidF (l.length + 1) l

/-- Model of `re.sub(r"\s+", " ", text)` (src/app.py:82): every maximal run of
whitespace becomes a single space. -/
def collapseWS : List Char → List Char
  | [] => []
  | c :: cs =>
    let r := collapseWS cs
    if isSpace c then
      if r.head? = some ' ' then r else ' ' :: r
    else c :: r

/-- Model of Python `str.strip()`: drop leading and trailing whitespace. -/
def stripChars (l : List Char) : List Char :=
  List.rdropWhile isSpace (l.dropWhile isSpace)

/-- Model of `re.sub(r"\n+", " ", text)` (src/app.py:83): every maximal run of
newlines becomes a single space; fuelled like `removeCidF`. -/
def collapseNLF : Nat → List Char → List Char
  | 0, l => l
  | _ + 1, [] => []
  | fuel + 1, c :: cs =>
    if c = '\n' then ' ' :: collapseNLF fuel (cs.dropWhile (fun d => d = '\n'))
    else c :: collapseNLF fuel cs

/-- Model of `re.sub(r"\n+", " ", text)` (src/app.py:83). -/
def collapseNL (l : List Char) : List Char :=
  collapseNLF (l.length + 1) l

/-- Character-level body of `clean_text` (src/app.py:78-84): remove `**`
pairs, remove `(cid:<digits>)` artifacts, collapse whitespace runs to single
spaces and strip the ends, then collapse newline runs (a no-op at that point,
kept for fidelity to the source's final `re.sub(r"\n+", " ", text)`). -/
def cleanChars (l : List Char) : List Char :=
  collapseNL (stripChars (collapseWS (removeCid (removeStars l))))

/-- Model of `clean_text` (src/app.py:78-84). -/
def clean_text (s : String) : String :=
  ⟨cleanChars s.data⟩

/-- Model of Python `str.strip()` on `String`s (used for `value.strip()` at
src/app.py:200 and `response.text.strip()` at src/app.py:169). -/
def stripS (s : String) : String :=
  ⟨stripChars s.data⟩


/-! Model of the field-extraction regex of `store_bill_details`
(src/app.py:196-197):

`(?P<field>Name|Address|...|Goal units):\s*(?P<value>.+?(?=\n\s*[-•]|\n\s*$|\Z))`

compiled with `re.IGNORECASE | re.DOTALL` and scanned with `re.findall`.
Since no label alternative is a prefix of another, the alternation matches at
most one literal at any position; `$` is end-of-string only (no
`re.MULTILINE`), so the `\n\s*$` lookahead branch fires exactly when
everything after the `\n` is whitespace. -/

/-- The label alternatives of the extraction regex, in source order
(src/app.py:196). -/
def fieldLits : List (List Char) :=
  ["Name", "Address", "Bill Amount", "Due Date", "Account Number",
   "Billing Period", "Additional Instructions", "Cost Fluctuations",
   "Monthly Comparison", "Average Daily Consumption",
   "Energy Efficiency Tips", "Water Efficiency Tips",
   "Additional Parameters", "Current units consumed", "Subsidies Unit",
   "Water Usage", "Bill Cycle", "Current Consumption Units",
   "Current Consumption Days", "Bill Date", "Challenges", "Bill History",
   "Consumption History", "Goal units"].map String.data

/-- Case-insensitive literal match: if `s` starts with `lit` up to ASCII
case, return the matched text (as written in `s`) and the remainder. -/
def matchLitCI : List Char → List Char → Option (List Char × List Char)
  | [], s => some ([], s)
  | _ :: _, [] => none
  | l :: ls, c :: cs =>
    if c.toLower = l.toLower then
      match matchLitCI ls cs with
      | some (m, r) => some (c :: m, r)
      | none => none
    else none

/-- First alternative of a regex alternation that matches at the current
position (Python tries alternatives left to right). -/
def firstMatch : List (List Char) → List Char → Option (List Char × List Char)
  | [], _ => none
  | lit :: lits, s =>
    match matchLitCI lit s with
    | some fr => some fr
    | none => firstMatch lits s

/-- The lookahead `(?=\n\s*[-•]|\n\s*$|\Z)` of the extraction regex, as a
predicate on the remaining text: end of text, or a newline after which the
next non-whitespace character (possibly across blank lines) is a bullet, or a
newline followed only by whitespace to the end (the `$` branch; without
`re.MULTILINE`, `$` only matches at the very end of the string or before a
final newline, both covered because a trailing newline is whitespace). -/
def lookaheadOk : List Char → Bool
  | [] => true
  | '\n' :: rest =>
    match rest.dropWhile isSpace with
    | [] => true
    | c :: _ => c = '-' || c = '•'
  | _ => false

/-- The lazy value group `.+?(?=…)` under `re.DOTALL`: consume at least one
character, stopping at the earliest position where the lookahead holds
(guaranteed to exist because the lookahead holds at end of text). -/
def takeValue : List Char → List Char × List Char
  | [] => ([], [])
  | c :: cs =>
    if lookaheadOk cs then ([c], cs)
    else
      let vr := takeValue cs
      (c :: vr.1, vr.2)

/-- One attempted match of the extraction regex at the current position:
a label alternative, a colon, greedy `\s*`, then the lazy value.  When
everything after the colon is whitespace, the greedy `\s*` backtracks by one
character so that `.+?` can consume it (the lookahead then holds at end of
text); when nothing at all follows the colon there is no match. -/
def matchAt (s : List Char) : Option (List Char × List Char × List Char) :=
  match firstMatch fieldLits s with
  | none => none
  | some (f, rest) =>
    match rest with
    | [] => none
    | c0 :: afterColon =>
      if c0 = ':' then
        let ws := afterColon.takeWhile isSpace
        let tail := afterColon.dropWhile isSpace
        match tail with
        | [] =>
          match ws.reverse with
          | [] => none
          | lastC :: _ => some (f, [lastC], [])
        | _ :: _ =>
          let vr := takeValue tail
          some (f, vr.1, vr.2)
      else none

/-- Model of `re.findall` for the extraction regex: scan left to right,
emitting `(field, value)` group pairs of non-overlapping matches and resuming
after each match; on failure advance one character.  Fuelled; fuel
`length + 1` always suffices since a match consumes at least one character. -/
def reFindAllF : Nat → List Char → List (List Char × List Char)
  | 0, _ => []
  | _ + 1, [] => []
  | fuel + 1, c :: cs =>
    match matchAt (c :: cs) with
    | some (f, v, rest) => (f, v) :: reFindAllF fuel rest
    | none => reFindAllF fuel cs

/-- Model of `re.findall(pattern, summary, re.IGNORECASE | re.DOTALL)`
(src/app.py:197). -/
def reFindAll (l : List Char) : List (List Char × List Char) :=
  reFindAllF (l.length + 1) l

/-- The `(field, value)` pairs extracted from a completion string, as
`String`s. -/
def findallPairs (summary : String) : List (String × String) :=
  (reFindAll summary.data).map (fun fv => (⟨fv.1⟩, ⟨fv.2⟩))


/-! Model of the extraction-and-store stage `store_bill_details`
(src/app.py:174-260).  The Python `data` dict is modelled as a partial map
`String → Option String`; dict assignment is pointwise update.  The actual
SQL insert only reads the initialised keys, so the record handed to the
database is determined by this map; a `bill_type` other than the two literals
crashes the function (`data` is never defined), modelled by `Option`. -/

/-- The sentinel every schema key is initialised to (src/app.py:177,185). -/
def sentinel : String := "Not provided"

/-- Keys of the electricity `data` dict (src/app.py:177-183): seventeen keys,
including `peak_usage_hours` and not including `challenges`. -/
def electricityKeys : List String :=
  ["name", "address", "bill_amount", "due_date", "account_number",
   "billing_period", "additional_instructions", "cost_fluctuations",
   "peak_usage_hours", "monthly_comparison", "avg_daily_consumption",
   "energy_efficiency_tips", "additional_parameters",
   "current_units_consumed", "subsidies_unit", "consumption_history",
   "goal_units"]

/-- Keys of the water `data` dict (src/app.py:185-191): nineteen keys. -/
def waterKeys : List String :=
  ["name", "water_usage", "bill_cycle", "current_consumption_units",
   "current_consumption_days", "billing_period", "bill_date",
   "account_number", "due_date", "bill_amount", "additional_instructions",
   "cost_fluctuations", "monthly_comparison", "avg_daily_consumption",
   "water_efficiency_tips", "subsidies_unit", "challenges", "bill_history",
   "goal_units"]

/-- Schema keys per bill type (the dict initialised at src/app.py:176-191;
only meaningful for the two valid bill types). -/
def schemaKeys (billType : String) : List String :=
  if billType = "electricity" then electricityKeys else waterKeys

/-- The Python `data` dict: canonical key to stored string. -/
def FieldMap : Type := String → Option String

/-- Dict assignment `data[k] = v`. -/
def updateMap (m : FieldMap) (k v : String) : FieldMap :=
  fun x => if x = k then some v else m x

/-- The dict comprehension `{key: "Not provided" for key in [...]}`
(src/app.py:177,185). -/
def initMap (keys : List String) : FieldMap :=
  fun k => if k ∈ keys then some sentinel else none

/-- ASCII lowercasing of a string (Python `str.lower()` on ASCII text). -/
def lowerS (s : String) : String :=
  ⟨s.data.map Char.toLower⟩

/-- Model of `field.lower().replace(" ", "_")` (src/app.py:204). -/
def canonKey (f : String) : String :=
  ⟨f.data.map (fun c => if c.toLower = ' ' then '_' else c.toLower)⟩

/-- Substring containment (Python `needle in hay`). -/
def isSubstr (needle hay : List Char) : Bool :=
  hay.tails.any (fun t => needle.isPrefixOf t)

/-- One iteration of the `for field, value in matches` loop
(src/app.py:199-204): strip and clean the value, turn a case-insensitive
`not found` into the sentinel, and assign it under `consumption_history`
when the lowercased label contains `consumption history`, otherwise under
the canonicalized label. -/
def applyMatch (data : FieldMap) (fv : String × String) : FieldMap :=
  let cleaned := clean_text (stripS fv.2)
  let v := if lowerS cleaned = "not found" then sentinel else cleaned
  if isSubstr "consumption history".data (lowerS fv.1).data then
    updateMap data "consumption_history" v
  else
    updateMap data (canonKey fv.1) v

/-- The full `for field, value in matches` loop over the findall result. -/
def extractLoop (ms : List (String × String)) (data : FieldMap) : FieldMap :=
  ms.foldl applyMatch data

/-- Exactly ten characters forming `dd-dd-dddd`; returns the remainder.
This is where `\d{2}-\d{2}-\d{4}` can match. -/
def dateOk : List Char → Option (List Char)
  | a :: b :: '-' :: c :: d :: '-' :: e :: f :: g :: h :: rest =>
    if a.isDigit && b.isDigit && c.isDigit && d.isDigit &&
       e.isDigit && f.isDigit && g.isDigit && h.isDigit then some rest
    else none
  | _ => none

/-- One attempted match of the fallback regex
`(\d{2}-\d{2}-\d{4} to \d{2}-\d{2}-\d{4}): (\d+) units` (src/app.py:207,
compiled with `re.IGNORECASE`) at the current position: returns the
date-range group (the first 24 characters, as written), the digit group, and
the remainder.  After the greedy `\d+` the pattern requires a literal space,
so the digit run is maximal. -/
def matchHistAt (s : List Char) : Option (List Char × List Char × List Char) :=
  match dateOk s with
  | none => none
  | some r1 =>
    match r1 with
    | ' ' :: t :: o :: ' ' :: r2 =>
      if t.toLower = 't' && o.toLower = 'o' then
        match dateOk r2 with
        | none => none
        | some r3 =>
          match r3 with
          | ':' :: ' ' :: r4 =>
            let num := r4.takeWhile Char.isDigit
            let r5 := r4.dropWhile Char.isDigit
            if num = [] then none
            else
              match matchLitCI " units".data r5 with
              | some (_, r6) => some (s.take 24, num, r6)
              | none => none
          | _ => none
      else none
    | _ => none

/-- Model of `re.findall(history_pattern, pdf_text, re.IGNORECASE)`
(src/app.py:208); fuelled scanner like `reFindAllF`. -/
def histFindAllF : Nat → List Char → List (List Char × List Char)
  | 0, _ => []
  | _ + 1, [] => []
  | fuel + 1, c :: cs =>
    match matchHistAt (c :: cs) with
    | some (rg, num, rest) => (rg, num) :: histFindAllF fuel rest
    | none => histFindAllF fuel cs

/-- The `(range, units)` group pairs of the fallback regex over the source
document text. -/
def historyMatches (t : String) : List (String × String) :=
  (histFindAllF (t.data.length + 1) t.data).map (fun p => (⟨p.1⟩, ⟨p.2⟩))

/-- Model of `"; ".join(f"{match[0]}: {match[1]} units" for match in
history_matches)` (src/app.py:210). -/
def joinHist : List (String × String) → String
  | [] => ""
  | [m] => m.1 ++ ": " ++ m.2 ++ " units"
  | m :: rest => m.1 ++ ": " ++ m.2 ++ " units" ++ "; " ++ joinHist rest

/-- Python truthiness of the optional `pdf_text` argument (`and pdf_text` at
src/app.py:206): present and non-empty. -/
def pdfTruthy : Option String → Bool
  | none => false
  | some t => t ≠ ""

/-- The fallback block of `store_bill_details` (src/app.py:206-211): only for
electricity, only when `consumption_history` still holds the sentinel and the
source text is truthy; joins the fallback matches, keeping the sentinel if
the joined string were empty (`history_str or "Not provided"`). -/
def applyFallback (billType : String) (pdfText : Option String)
    (data : FieldMap) : FieldMap :=
  if billType = "electricity" ∧ data "consumption_history" = some sentinel ∧
      pdfTruthy pdfText then
    if historyMatches (pdfText.getD "") = [] then data
    else
      updateMap data "consumption_history"
        (if joinHist (historyMatches (pdfText.getD "")) = "" then sentinel
         else joinHist (historyMatches (pdfText.getD "")))
  else data

/-- Extraction part of `store_bill_details` (src/app.py:174-211): the `data`
dict after the init, the findall loop, and the fallback.  `none` models the
`NameError` crash on a bill type other than the two literals. -/
def store_bill_details (summary billType : String) (pdfText : Option String) :
    Option FieldMap :=
  if billType = "electricity" ∨ billType = "water" then
    some (applyFallback billType pdfText
      (extractLoop (findallPairs summary) (initMap (schemaKeys billType))))
  else none

/-- The field map produced by `store_bill_details`, with the empty map for
the crash case (convenience accessor for concrete statements). -/
def storeMap (summary billType : String) (pdfText : Option String) : FieldMap :=
  (store_bill_details summary billType pdfText).getD (fun _ => none)

/-- Every dict key the extraction loop can ever assign: the canonicalized
forms of the fixed label alternatives, plus `consumption_history` (the target
of the special-cased branch at src/app.py:201-202). -/
def canonLabelKeys : List String :=
  (fieldLits.map (fun l => canonKey ⟨l⟩)) ++ ["consumption_history"]

/-- A non-empty single word: no whitespace and none of the characters the
normalizer's marker-removal passes react to. -/
abbrev tokenish (s : String) : Prop :=
  s.data ≠ [] ∧ ∀ c ∈ s.data, isSpace c = false ∧ c ≠ '*' ∧ c ≠ '('


/-! Model of `extract_text_from_pdf` (src/app.py:86-103).  A page is its
embedded text layer (`page.extract_text()`, `none` when the library returns
`None`) together with the outcome of the OCR attempt: an error (the
`except` at src/app.py:98-99), `some none` when `convert_from_path` returns
no images (the `if images:` guard leaves the page text unchanged), or
`some (some t)` when OCR returns `t`. -/

/-- One PDF page: embedded text plus the outcome OCR would have. -/
structure Page where
  embedded : Option String
  ocr : Except String (Option String)

/-- The text a page contributes (src/app.py:92-99): the embedded text when it
is non-blank; otherwise the OCR text when OCR succeeds with images; otherwise
the (blank) embedded text — an OCR failure is absorbed and the page keeps its
blank embedded text. -/
def pageContribChars (p : Page) : List Char :=
  if stripChars (p.embedded.getD "").data = [] then
    match p.ocr with
    | .ok (some t) => t.data
    | .ok none => (p.embedded.getD "").data
    | .error _ => (p.embedded.getD "").data
  else (p.embedded.getD "").data

/-- The accumulated buffer `text += page_text + "\n"` over the pages in
order (src/app.py:100). -/
def pdfBuffer : List Page → List Char
  | [] => []
  | p :: ps => pageContribChars p ++ '\n' :: pdfBuffer ps

/-- Model of `extract_text_from_pdf` (src/app.py:86-103): a failure to open
the PDF yields the empty buffer (the outer `except` at src/app.py:101-102);
otherwise the per-page buffer; either way the result passes through
`clean_text`. -/
def extract_text_from_pdf (doc : Except String (List Page)) : String :=
  match doc with
  | .error _ => clean_text ""
  | .ok pages => ⟨cleanChars (pdfBuffer pages)⟩

/-! Model of `generate_summary` (src/app.py:105-172) and the `/upload`
handler (src/app.py:266-290).  The completion oracle is parametrised as an
`Except`: the code catches an exception from `model.generate_content` and
returns the string `"Error generating content: {e}"` instead of raising
(src/app.py:166-172). -/

/-- Model of `generate_summary` (src/app.py:105-172): a missing or empty API
key raises before any network call; an invalid bill type raises while the
prompt is built; a model-call failure is caught and converted into an
`"Error generating content: …"` summary; a successful completion is
stripped. -/
def generate_summary (apiKey : Option String) (_pdfText : String)
    (billType : String) (modelResult : Except String String) :
    Except String String :=
  match apiKey with
  | none => .error "API key is missing. Please set it in the .env file."
  | some k =>
    if k = "" then .error "API key is missing. Please set it in the .env file."
    else if billType = "electricity" ∨ billType = "water" then
      match modelResult with
      | .ok t => .ok (stripS t)
      | .error e => .ok ("Error generating content: " ++ e)
    else .error "Invalid bill type. Use 'electricity' or 'water'."

/-- The success response of the upload handler (src/app.py:285). -/
def redirectURL : String := "http://localhost:3000/home"

/-- Model of the `/upload` pipeline body (src/app.py:281-288): extract the
text, generate the summary, store the record, redirect on success; any
exception escaping these stages is answered with the 500 error string. -/
def upload_pdf (doc : Except String (List Page)) (apiKey : Option String)
    (billType : String) (modelResult : Except String String) :
    Except String (FieldMap × String) :=
  let pdfText := extract_text_from_pdf doc
  match generate_summary apiKey pdfText billType modelResult with
  | .error _ => .error "An error occurred while processing the file"
  | .ok summary =>
    match store_bill_details summary billType (some pdfText) with
    | some data => .ok (data, redirectURL)
    | none => .error "An error occurred while processing the file"


/-! Lemmas about the text normalizer. -/

/-- Every whitespace character of the list is a plain space. -/
def wsSpaceOnly (l : List Char) : Prop :=
  ∀ c ∈ l, isSpace c = true → c = ' '

/-- No two adjacent characters are both whitespace. -/
def noAdjWS (l : List Char) : Prop :=
  l.Chain' (fun a b => isSpace a = false ∨ isSpace b = false)

theorem removeStars_of_no_star (l : List Char) (h : ∀ c ∈ l, c ≠ '*') :
    removeStars l = l := by
  induction l using removeStars.induct with
  | case1 rest _ => exact absurd rfl (h '*' (by simp))
  | case2 c rest hne ih =>
    simp only [removeStars]
    rw [ih (fun d hd => h d (List.mem_cons_of_mem c hd))]
  | case3 => rfl

theorem cidMatch_none_of_not_paren (c : Char) (cs : List Char)
    (h : c ≠ '(') : cidMatch (c :: cs) = none := by
  have hpre : "(cid:".data.isPrefixOf (c :: cs) = false := by
    show (('(' :: 'c' :: 'i' :: 'd' :: ':' :: []).isPrefixOf (c :: cs)) = false
    simp [List.isPrefixOf, Ne.symm h]
  simp [cidMatch, hpre]

theorem removeCidF_of_no_paren (fuel : Nat) (l : List Char)
    (h : ∀ c ∈ l, c ≠ '(') : removeCidF fuel l = l := by
  induction fuel generalizing l with
  | zero => rfl
  | succ fuel ih =>
    match l with
    | [] => rfl
    | c :: cs =>
      have hc : cidMatch (c :: cs) = none :=
        cidMatch_none_of_not_paren c cs (h c (by simp))
      simp only [removeCidF, hc]
      rw [ih cs (fun d hd => h d (List.mem_cons_of_mem c hd))]

theorem removeCid_of_no_paren (l : List Char) (h : ∀ c ∈ l, c ≠ '(') :
    removeCid l = l :=
  removeCidF_of_no_paren _ l h

theorem collapseNLF_of_no_newline (fuel : Nat) (l : List Char)
    (h : ∀ c ∈ l, c ≠ '\n') : collapseNLF fuel l = l := by
  induction fuel generalizing l with
  | zero => rfl
  | succ fuel ih =>
    match l with
    | [] => rfl
    | c :: cs =>
      have hc : c ≠ '\n' := h c (by simp)
      simp only [collapseNLF, if_neg hc]
      rw [ih cs (fun d hd => h d (List.mem_cons_of_mem c hd))]

theorem collapseNL_of_no_newline (l : List Char) (h : ∀ c ∈ l, c ≠ '\n') :
    collapseNL l = l :=
  collapseNLF_of_no_newline _ l h

theorem wsSpaceOnly_collapseWS (l : List Char) : wsSpaceOnly (collapseWS l) := by
  induction l with
  | nil => intro c hc; simp [collapseWS] at hc
  | cons c cs ih =>
    intro d hd hws
    simp only [collapseWS] at hd
    by_cases hc : isSpace c = true
    · rw [if_pos hc] at hd
      by_cases hh : (collapseWS cs).head? = some ' '
      · rw [if_pos hh] at hd
        exact ih d hd hws
      · rw [if_neg hh] at hd
        rcases List.mem_cons.mp hd with h1 | h2
        · exact h1
        · exact ih d h2 hws
    · rw [if_neg hc] at hd
      rcases List.mem_cons.mp hd with h1 | h2
      · exact absurd (h1 ▸ hws) (by simp [hc])
      · exact ih d h2 hws

theorem noAdjWS_collapseWS (l : List Char) : noAdjWS (collapseWS l) := by
  induction l with
  | nil => exact List.chain'_nil
  | cons c cs ih =>
    simp only [collapseWS]
    by_cases hc : isSpace c = true
    · rw [if_pos hc]
      by_cases hh : (collapseWS cs).head? = some ' '
      · rw [if_pos hh]; exact ih
      · rw [if_neg hh]
        refine List.chain'_cons'.mpr ⟨?_, ih⟩
        intro b hb
        right
        cases hbs : isSpace b with
        | false => rfl
        | true =>
          exfalso
          have hbm : b ∈ collapseWS cs := List.mem_of_mem_head? hb
          have : b = ' ' := wsSpaceOnly_collapseWS cs b hbm hbs
          subst this
          exact hh hb
    · rw [if_neg hc]
      refine List.chain'_cons'.mpr ⟨?_, ih⟩
      intro b _
      left
      simpa using hc

theorem collapseWS_eq_self (l : List Char) (h1 : wsSpaceOnly l)
    (h2 : noAdjWS l) : collapseWS l = l := by
  induction l with
  | nil => rfl
  | cons c cs ih =>
    have htail : collapseWS cs = cs :=
      ih (fun d hd => h1 d (List.mem_cons_of_mem c hd)) (List.Chain'.tail h2)
    simp only [collapseWS, htail]
    by_cases hc : isSpace c = true
    · rw [if_pos hc]
      have hcsp : c = ' ' := h1 c (List.mem_cons_self _ _) hc
      have hh : cs.head? ≠ some ' ' := by
        intro hh
        match cs, hh with
        | d :: ds, hh =>
          have hd : isSpace c = false ∨ isSpace d = false :=
            (List.chain'_cons'.mp h2).1 d rfl
          simp only [List.head?_cons, Option.some.injEq] at hh
          subst hh
          rcases hd with h | h
          · rw [hc] at h; cases h
          · simp [isSpace] at h
      rw [if_neg hh, hcsp]
    · rw [if_neg hc]

theorem stripChars_idem (l : List Char) :
    stripChars (stripChars l) = stripChars l := by
  show
    List.rdropWhile isSpace
      ((List.rdropWhile isSpace (l.dropWhile isSpace)).dropWhile isSpace) =
    List.rdropWhile isSpace (l.dropWhile isSpace)
  have hdrop :
      (List.rdropWhile isSpace (l.dropWhile isSpace)).dropWhile isSpace =
        List.rdropWhile isSpace (l.dropWhile isSpace) := by
    rcases hxv : List.rdropWhile isSpace (l.dropWhile isSpace) with _ | ⟨c, cs⟩
    · rfl
    · obtain ⟨t, ht⟩ := hxv ▸ List.rdropWhile_prefix isSpace (l.dropWhile isSpace)
      have hh? : (l.dropWhile isSpace).head? = some c := by
        rw [← ht]; simp
      have hmatch := List.head?_dropWhile_not isSpace l
      rw [hh?] at hmatch
      have hhead : isSpace c = false := hmatch
      rw [List.dropWhile_cons_of_neg (by simp [hhead])]
  rw [hdrop, List.rdropWhile_idempotent]

theorem wsSpaceOnly_of_sublist {l m : List Char} (h : List.Sublist m l)
    (hl : wsSpaceOnly l) : wsSpaceOnly m :=
  fun c hc hws => hl c (h.subset hc) hws

theorem stripChars_sublist (l : List Char) : List.Sublist (stripChars l) l :=
  (( List.rdropWhile_prefix isSpace _).sublist).trans
    (List.dropWhile_suffix isSpace).sublist

theorem wsSpaceOnly_stripChars (l : List Char) (h : wsSpaceOnly l) :
    wsSpaceOnly (stripChars l) :=
  wsSpaceOnly_of_sublist (stripChars_sublist l) h

theorem noAdjWS_stripChars (l : List Char) (h : noAdjWS l) :
    noAdjWS (stripChars l) :=
  List.Chain'.prefix (h.suffix (List.dropWhile_suffix isSpace))
    ( List.rdropWhile_prefix isSpace _)

theorem no_newline_of_wsSpaceOnly (l : List Char) (h : wsSpaceOnly l) :
    ∀ c ∈ l, c ≠ '\n' := by
  intro c hc he
  subst he
  have := h '\n' hc (by decide)
  exact absurd this (by decide)

theorem cleanChars_fixed (l : List Char)
    (h1 : removeStars (cleanChars l) = cleanChars l)
    (h2 : removeCid (cleanChars l) = cleanChars l) :
    cleanChars (cleanChars l) = cleanChars l := by
  have hx : cleanChars l =
      stripChars (collapseWS (removeCid (removeStars l))) := by
    unfold cleanChars
    apply collapseNL_of_no_newline
    exact no_newline_of_wsSpaceOnly _
      (wsSpaceOnly_stripChars _ (wsSpaceOnly_collapseWS _))
  set x := stripChars (collapseWS (removeCid (removeStars l))) with hxdef
  have hws : wsSpaceOnly x :=
    wsSpaceOnly_stripChars _ (wsSpaceOnly_collapseWS _)
  have hadj : noAdjWS x :=
    noAdjWS_stripChars _ (noAdjWS_collapseWS _)
  rw [hx] at h1 h2 ⊢
  unfold cleanChars
  rw [h1, h2, collapseWS_eq_self x hws hadj]
  have hsx : stripChars x = x := by
    rw [hxdef]; exact stripChars_idem _
  rw [hsx, collapseNL_of_no_newline _ (no_newline_of_wsSpaceOnly _ hws)]

/-! Lemmas about the extraction loop and the structure of its keys. -/

theorem isSome_updateMap (data : FieldMap) (key v k : String)
    (h : (data k).isSome = true) : ((updateMap data key v) k).isSome = true := by
  unfold updateMap
  by_cases he : k = key
  · rw [if_pos he]; rfl
  · rw [if_neg he]; exact h

theorem isSome_applyMatch (data : FieldMap) (fv : String × String) (k : String)
    (h : (data k).isSome = true) : ((applyMatch data fv) k).isSome = true := by
  unfold applyMatch
  split
  · exact isSome_updateMap _ _ _ _ h
  · exact isSome_updateMap _ _ _ _ h

theorem isSome_extractLoop (ms : List (String × String)) (data : FieldMap)
    (k : String) (h : (data k).isSome = true) :
    ((extractLoop ms data) k).isSome = true := by
  induction ms generalizing data with
  | nil => exact h
  | cons fv ms ih =>
    show ((extractLoop ms (applyMatch data fv)) k).isSome = true
    exact ih _ (isSome_applyMatch data fv k h)

theorem isSome_applyFallback (billType : String) (pdfText : Option String)
    (data : FieldMap) (k : String) (h : (data k).isSome = true) :
    ((applyFallback billType pdfText data) k).isSome = true := by
  unfold applyFallback
  split
  · split
    · exact h
    · exact isSome_updateMap _ _ _ _ h
  · exact h

theorem updateMap_ne_none (data : FieldMap) (key v k : String)
    (h : (updateMap data key v) k ≠ none) : k = key ∨ data k ≠ none := by
  unfold updateMap at h
  by_cases he : k = key
  · exact Or.inl he
  · rw [if_neg he] at h; exact Or.inr h

theorem applyMatch_ne_none (data : FieldMap) (fv : String × String) (k : String)
    (h : (applyMatch data fv) k ≠ none) :
    data k ≠ none ∨ k = canonKey fv.1 ∨ k = "consumption_history" := by
  unfold applyMatch at h
  split at h
  · rcases updateMap_ne_none _ _ _ _ h with he | hd
    · exact Or.inr (Or.inr he)
    · exact Or.inl hd
  · rcases updateMap_ne_none _ _ _ _ h with he | hd
    · exact Or.inr (Or.inl he)
    · exact Or.inl hd

theorem extractLoop_ne_none (ms : List (String × String)) (data : FieldMap)
    (k : String) (h : (extractLoop ms data) k ≠ none) :
    data k ≠ none ∨
      ∃ fv ∈ ms, k = canonKey fv.1 ∨ k = "consumption_history" := by
  induction ms generalizing data with
  | nil => exact Or.inl h
  | cons fv ms ih =>
    have h' : (extractLoop ms (applyMatch data fv)) k ≠ none := h
    rcases ih (applyMatch data fv) h' with hd | ⟨fv', hm, hk⟩
    · rcases applyMatch_ne_none _ _ _ hd with hd' | hk
      · exact Or.inl hd'
      · exact Or.inr ⟨fv, List.mem_cons_self _ _, hk⟩
    · exact Or.inr ⟨fv', List.mem_cons_of_mem _ hm, hk⟩

theorem applyFallback_ne_none (billType : String) (pdfText : Option String)
    (data : FieldMap) (k : String)
    (h : applyFallback billType pdfText data k ≠ none) :
    data k ≠ none ∨ k = "consumption_history" := by
  unfold applyFallback at h
  split at h
  · split at h
    · exact Or.inl h
    · rcases updateMap_ne_none _ _ _ _ h with he | hd
      · exact Or.inr he
      · exact Or.inl hd
  · exact Or.inl h

theorem initMap_ne_none (keys : List String) (k : String)
    (h : initMap keys k ≠ none) : k ∈ keys := by
  by_contra hk
  unfold initMap at h
  rw [if_neg hk] at h
  exact h rfl

theorem matchLitCI_lower (lit : List Char) :
    ∀ s m r, matchLitCI lit s = some (m, r) →
      m.map Char.toLower = lit.map Char.toLower := by
  induction lit with
  | nil =>
    intro s m r h
    simp only [matchLitCI, Option.some.injEq, Prod.mk.injEq] at h
    rw [← h.1]
  | cons l ls ih =>
    intro s m r h
    match s with
    | [] => simp [matchLitCI] at h
    | c :: cs =>
      simp only [matchLitCI] at h
      by_cases he : c.toLower = l.toLower
      · rw [if_pos he] at h
        rcases hm : matchLitCI ls cs with _ | ⟨m', r'⟩
        · rw [hm] at h; cases h
        · rw [hm] at h
          simp only [Option.some.injEq, Prod.mk.injEq] at h
          obtain ⟨h1, _⟩ := h
          rw [← h1]
          simp only [List.map_cons]
          rw [he, ih cs m' r' hm]
      · rw [if_neg he] at h; cases h

theorem firstMatch_mem (L : List (List Char)) (s : List Char)
    (fr : List Char × List Char) (h : firstMatch L s = some fr) :
    ∃ lit ∈ L, matchLitCI lit s = some fr := by
  induction L with
  | nil => simp [firstMatch] at h
  | cons lit lits ih =>
    simp only [firstMatch] at h
    rcases hm : matchLitCI lit s with _ | fr'
    · rw [hm] at h
      obtain ⟨lit', hl, hml⟩ := ih h
      exact ⟨lit', List.mem_cons_of_mem _ hl, hml⟩
    · rw [hm] at h
      injection h with h
      subst h
      exact ⟨lit, List.mem_cons_self _ _, hm⟩

theorem matchAt_field (s f v rest : List Char)
    (h : matchAt s = some (f, v, rest)) :
    ∃ r, firstMatch fieldLits s = some (f, r) := by
  unfold matchAt at h
  rcases hfm : firstMatch fieldLits s with _ | ⟨f', rest'⟩
  · rw [hfm] at h; cases h
  · rw [hfm] at h
    refine ⟨rest', ?_⟩
    dsimp only at h
    match rest' with
    | [] => cases h
    | c0 :: afterColon =>
      dsimp only at h
      by_cases hc0 : c0 = ':'
      · rw [if_pos hc0] at h
        rcases htail : afterColon.dropWhile isSpace with _ | ⟨t0, ts⟩
        · rw [htail] at h
          rcases hws : (afterColon.takeWhile isSpace).reverse with _ | ⟨w0, ws'⟩
          · rw [hws] at h; cases h
          · rw [hws] at h
            simp only [Option.some.injEq, Prod.mk.injEq] at h
            rw [h.1]
        · rw [htail] at h
          simp only [Option.some.injEq, Prod.mk.injEq] at h
          rw [h.1]
      · rw [if_neg hc0] at h; cases h

theorem reFindAllF_fields (fuel : Nat) :
    ∀ (s : List Char), ∀ p ∈ reFindAllF fuel s,
      ∃ lit ∈ fieldLits, p.1.map Char.toLower = lit.map Char.toLower := by
  induction fuel with
  | zero => intro s p hp; simp [reFindAllF] at hp
  | succ fuel ih =>
    intro s p hp
    match s with
    | [] => simp [reFindAllF] at hp
    | c :: cs =>
      simp only [reFindAllF] at hp
      rcases hm : matchAt (c :: cs) with _ | ⟨f, v, rest⟩
      · rw [hm] at hp
        exact ih cs p hp
      · rw [hm] at hp
        rcases List.mem_cons.mp hp with h1 | h2
        · obtain ⟨r, hfm⟩ := matchAt_field _ _ _ _ hm
          obtain ⟨lit, hl, hml⟩ := firstMatch_mem _ _ _ hfm
          refine ⟨lit, hl, ?_⟩
          rw [h1]
          exact matchLitCI_lower lit _ _ _ hml
        · exact ih rest p h2

theorem findallPairs_fields (summary : String) (fv : String × String)
    (h : fv ∈ findallPairs summary) :
    ∃ lit ∈ fieldLits, fv.1.data.map Char.toLower = lit.map Char.toLower := by
  unfold findallPairs reFindAll at h
  obtain ⟨p, hp, he⟩ := List.mem_map.mp h
  obtain ⟨lit, hl, hlow⟩ := reFindAllF_fields _ _ p hp
  refine ⟨lit, hl, ?_⟩
  rw [← he]
  exact hlow

theorem canonKey_eq_of_lower_eq (f lit : List Char)
    (h : f.map Char.toLower = lit.map Char.toLower) :
    canonKey ⟨f⟩ = canonKey ⟨lit⟩ := by
  unfold canonKey
  apply congrArg String.mk
  show f.map (fun c => if c.toLower = ' ' then '_' else c.toLower) =
    lit.map (fun c => if c.toLower = ' ' then '_' else c.toLower)
  have hcomp : (fun c => if c.toLower = ' ' then '_' else c.toLower) =
      (fun d => if d = ' ' then '_' else d) ∘ Char.toLower := rfl
  rw [hcomp, ← List.map_map, ← List.map_map, h]

theorem collapseWS_append_no_ws (a b : List Char)
    (h : ∀ c ∈ a, isSpace c = false) :
    collapseWS (a ++ b) = a ++ collapseWS b := by
  induction a with
  | nil => rfl
  | cons c cs ih =>
    simp only [List.cons_append, collapseWS, List.append_eq]
    rw [ih (fun d hd => h d (List.mem_cons_of_mem c hd))]
    rw [if_neg (by simp [h c (List.mem_cons_self c cs)])]

theorem head?_collapseWS_not_space (b : List Char)
    (hb : ∀ c cs, b = c :: cs → isSpace c = false) :
    (collapseWS b).head? ≠ some ' ' := by
  match b with
  | [] => intro hh; simp [collapseWS] at hh
  | c :: cs =>
    have hc : isSpace c = false := hb c cs rfl
    simp only [collapseWS]
    rw [if_neg (by simp [hc])]
    intro hh
    simp only [List.head?_cons, Option.some.injEq] at hh
    subst hh
    simp [isSpace] at hc

theorem collapseWS_ws_run (w b : List Char) (hw : ∀ c ∈ w, isSpace c = true)
    (hwne : w ≠ []) (hb : ∀ c cs, b = c :: cs → isSpace c = false) :
    collapseWS (w ++ b) = ' ' :: collapseWS b := by
  induction w with
  | nil => cases hwne rfl
  | cons c cs ih =>
    simp only [List.cons_append, collapseWS, List.append_eq]
    by_cases hcs : cs = []
    · subst hcs
      simp only [List.nil_append]
      rw [if_pos (hw c (List.mem_cons_self c [])),
        if_neg (head?_collapseWS_not_space b hb)]
    · rw [ih (fun d hd => hw d (List.mem_cons_of_mem c hd)) hcs,
        if_pos (hw c (List.mem_cons_self _ _))]
      simp

theorem stripChars_eq_nil_all_ws (l : List Char) (h : stripChars l = []) :
    ∀ c ∈ l, isSpace c = true := by
  intro c hc
  unfold stripChars at h
  have hdw : ∀ x ∈ l.dropWhile isSpace, isSpace x = true :=
    List.rdropWhile_eq_nil_iff.mp h
  have hsplit : c ∈ l.takeWhile isSpace ++ l.dropWhile isSpace := by
    rw [List.takeWhile_append_dropWhile]
    exact hc
  rcases List.mem_append.mp hsplit with htk | hdr
  · exact List.mem_takeWhile_imp htk
  · exact hdw c hdr

theorem stripChars_token_middle (e1 e3 : List Char)
    (h1 : ∀ c ∈ e1, isSpace c = false) (h1ne : e1 ≠ [])
    (h3 : ∀ c ∈ e3, isSpace c = false) (h3ne : e3 ≠ []) :
    stripChars (e1 ++ ' ' :: (e3 ++ [' '])) = e1 ++ ' ' :: e3 := by
  unfold stripChars
  have hfront : (e1 ++ ' ' :: (e3 ++ [' '])).dropWhile isSpace =
      e1 ++ ' ' :: (e3 ++ [' ']) := by
    match e1, h1ne with
    | c :: cs, _ =>
      rw [List.cons_append,
        List.dropWhile_cons_of_neg
          (by simp [h1 c (List.mem_cons_self _ _)])]
  rw [hfront]
  have hassoc : e1 ++ ' ' :: (e3 ++ [' ']) = (e1 ++ ' ' :: e3) ++ [' '] := by
    simp
  rw [hassoc, List.rdropWhile_concat_pos isSpace (e1 ++ ' ' :: e3) ' '
    (by decide)]
  rcases e3.eq_nil_or_concat with he3 | ⟨e3', d, rfl⟩
  · exact absurd he3 h3ne
  simp only [List.concat_eq_append] at h3 ⊢
  have hd : isSpace d = false := h3 d (by simp)
  have hassoc2 : e1 ++ ' ' :: (e3' ++ [d]) = (e1 ++ ' ' :: e3') ++ [d] := by
    simp
  rw [hassoc2, List.rdropWhile_concat_neg isSpace (e1 ++ ' ' :: e3') d
    (by simp [hd])]

theorem data_append (a b : String) : (a ++ b).data = a.data ++ b.data := rfl

theorem joinHist_ne_empty (hs : List (String × String)) (h : hs ≠ []) :
    joinHist hs ≠ "" := by
  match hs with
  | [m] =>
    show m.1 ++ ": " ++ m.2 ++ " units" ≠ ""
    intro he
    have hd : (m.1 ++ ": " ++ m.2 ++ " units").data = "".data :=
      congrArg String.data he
    rw [data_append, data_append, data_append] at hd
    have hnil := List.append_eq_nil.mp hd
    exact absurd hnil.2 (by decide)
  | m :: m2 :: rest =>
    show m.1 ++ ": " ++ m.2 ++ " units" ++ "; " ++ joinHist (m2 :: rest) ≠ ""
    intro he
    have hd :
        (m.1 ++ ": " ++ m.2 ++ " units" ++ "; " ++
          joinHist (m2 :: rest)).data = "".data :=
      congrArg String.data he
    rw [data_append, data_append, data_append, data_append, data_append] at hd
    have hnil := List.append_eq_nil.mp hd
    have hnil2 := List.append_eq_nil.mp hnil.1
    exact absurd hnil2.2 (by decide)

/-! Claim theorems. -/

/-- C8: an OCR failure on one page is absorbed.  For a three-page PDF whose
middle page has a blank text layer and failing OCR while pages 1 and 3 have
non-blank embedded text, the extracted document is exactly the normalization
of page 1's text, the (blank) page 2 text, and page 3's text joined by the
page separators, in order; when pages 1 and 3 are single words the result is
literally `page1 page3`. -/
theorem C8_ocr_failure_isolated (p1 p2 p3 : Page) (msg : String)
    (h1 : stripChars (p1.embedded.getD "").data ≠ [])
    (h2 : stripChars (p2.embedded.getD "").data = [])
    (ho : p2.ocr = .error msg)
    (h3 : stripChars (p3.embedded.getD "").data ≠ []) :
    extract_text_from_pdf (.ok [p1, p2, p3]) =
      clean_text ⟨(p1.embedded.getD "").data ++
        '\n' :: ((p2.embedded.getD "").data ++
          '\n' :: ((p3.embedded.getD "").data ++ ['\n']))⟩ ∧
    (tokenish (p1.embedded.getD "") → tokenish (p3.embedded.getD "") →
      extract_text_from_pdf (.ok [p1, p2, p3]) =
        p1.embedded.getD "" ++ " " ++ p3.embedded.getD "") := by
  have hc1 : pageContribChars p1 = (p1.embedded.getD "").data := by
    unfold pageContribChars
    rw [if_neg h1]
  have hc2 : pageContribChars p2 = (p2.embedded.getD "").data := by
    unfold pageContribChars
    rw [if_pos h2, ho]
  have hc3 : pageContribChars p3 = (p3.embedded.getD "").data := by
    unfold pageContribChars
    rw [if_neg h3]
  have hbuf : pdfBuffer [p1, p2, p3] =
      (p1.embedded.getD "").data ++
        '\n' :: ((p2.embedded.getD "").data ++
          '\n' :: ((p3.embedded.getD "").data ++ ['\n'])) := by
    show pageContribChars p1 ++ '\n' :: (pageContribChars p2 ++
      '\n' :: (pageContribChars p3 ++ '\n' :: pdfBuffer [])) = _
    rw [hc1, hc2, hc3]
    rfl
  constructor
  · show (⟨cleanChars (pdfBuffer [p1, p2, p3])⟩ : String) = _
    rw [hbuf]
    rfl
  · intro ht1 ht3
    obtain ⟨h1ne, h1tok⟩ := ht1
    obtain ⟨h3ne, h3tok⟩ := ht3
    have he2ws : ∀ c ∈ (p2.embedded.getD "").data, isSpace c = true :=
      stripChars_eq_nil_all_ws _ h2
    have hmem : ∀ c ∈ ((p1.embedded.getD "").data ++
        '\n' :: ((p2.embedded.getD "").data ++
          '\n' :: ((p3.embedded.getD "").data ++ ['\n']))),
        c ∈ (p1.embedded.getD "").data ∨ c ∈ (p2.embedded.getD "").data ∨
          c ∈ (p3.embedded.getD "").data ∨ c = '\n' := by
      intro c hc
      simp only [List.mem_append, List.mem_cons, List.mem_singleton,
        List.not_mem_nil, or_false] at hc
      tauto
    have hclean : cleanChars ((p1.embedded.getD "").data ++
        '\n' :: ((p2.embedded.getD "").data ++
          '\n' :: ((p3.embedded.getD "").data ++ ['\n']))) =
        (p1.embedded.getD "").data ++ ' ' :: (p3.embedded.getD "").data := by
      unfold cleanChars
      have hnostar : ∀ c ∈ ((p1.embedded.getD "").data ++
          '\n' :: ((p2.embedded.getD "").data ++
            '\n' :: ((p3.embedded.getD "").data ++ ['\n']))), c ≠ '*' := by
        intro c hc
        rcases hmem c hc with h | h | h | h
        · exact (h1tok c h).2.1
        · intro he; subst he; exact absurd (he2ws '*' h) (by decide)
        · exact (h3tok c h).2.1
        · subst h; decide
      have hnoparen : ∀ c ∈ ((p1.embedded.getD "").data ++
          '\n' :: ((p2.embedded.getD "").data ++
            '\n' :: ((p3.embedded.getD "").data ++ ['\n']))), c ≠ '(' := by
        intro c hc
        rcases hmem c hc with h | h | h | h
        · exact (h1tok c h).2.2
        · intro he; subst he; exact absurd (he2ws '(' h) (by decide)
        · exact (h3tok c h).2.2
        · subst h; decide
      rw [removeStars_of_no_star _ hnostar, removeCid_of_no_paren _ hnoparen]
      have hshape : ((p1.embedded.getD "").data ++
          '\n' :: ((p2.embedded.getD "").data ++
            '\n' :: ((p3.embedded.getD "").data ++ ['\n']))) =
          (p1.embedded.getD "").data ++
            (('\n' :: ((p2.embedded.getD "").data ++ ['\n'])) ++
              ((p3.embedded.getD "").data ++ ['\n'])) := by
        simp
      rw [hshape,
        collapseWS_append_no_ws (p1.embedded.getD "").data _
          (fun c hc => (h1tok c hc).1)]
      have hwAll : ∀ c ∈ ('\n' :: ((p2.embedded.getD "").data ++ ['\n'])),
          isSpace c = true := by
        intro c hc
        rcases List.mem_cons.mp hc with h | h
        · subst h; decide
        · rcases List.mem_append.mp h with h' | h'
          · exact he2ws c h'
          · rw [List.mem_singleton.mp h']; decide
      have hbhead : ∀ c cs, ((p3.embedded.getD "").data ++ ['\n']) = c :: cs →
          isSpace c = false := by
        intro c cs hcs
        match hp3 : (p3.embedded.getD "").data, h3ne with
        | a :: as, _ =>
          rw [hp3, List.cons_append] at hcs
          injection hcs with hc1' _
          rw [← hc1']
          exact (h3tok a (by rw [hp3]; exact List.mem_cons_self _ _)).1
      rw [collapseWS_ws_run ('\n' :: ((p2.embedded.getD "").data ++ ['\n']))
        ((p3.embedded.getD "").data ++ ['\n']) hwAll (by simp) hbhead,
        collapseWS_append_no_ws (p3.embedded.getD "").data ['\n']
          (fun c hc => (h3tok c hc).1)]
      have hnl : collapseWS ['\n'] = [' '] := by decide
      rw [hnl,
        stripChars_token_middle (p1.embedded.getD "").data
          (p3.embedded.getD "").data (fun c hc => (h1tok c hc).1) h1ne
          (fun c hc => (h3tok c hc).1) h3ne]
      apply collapseNL_of_no_newline
      intro c hc
      rcases List.mem_append.mp hc with h | h
      · intro he
        subst he
        exact absurd (h1tok '\n' h).1 (by decide)
      · rcases List.mem_cons.mp h with h' | h'
        · subst h'; decide
        · intro he
          subst he
          exact absurd (h3tok '\n' h').1 (by decide)
    show (⟨cleanChars (pdfBuffer [p1, p2, p3])⟩ : String) = _
    rw [hbuf, hclean]
    have hdata : (p1.embedded.getD "" ++ " " ++ p3.embedded.getD "").data =
        (p1.embedded.getD "").data ++ ' ' :: (p3.embedded.getD "").data := by
      rw [data_append, data_append]
      have hsp : (" " : String).data = [' '] := rfl
      rw [hsp]
      simp
    exact (String.ext hdata).symm

/-- C8 witness: a concrete three-page document whose middle page is blank
with failing OCR still yields both outer pages' words in order. -/
theorem C8_witness :
    (stripChars ((some "Alpha" : Option String).getD "").data ≠ [] ∧
      stripChars ((some "  " : Option String).getD "").data = [] ∧
      stripChars ((some "Gamma" : Option String).getD "").data ≠ [] ∧
      tokenish ((some "Alpha" : Option String).getD "") ∧
      tokenish ((some "Gamma" : Option String).getD "")) ∧
    extract_text_from_pdf
      (.ok [⟨some "Alpha", .ok none⟩, ⟨some "  ", .error "ocr boom"⟩,
        ⟨some "Gamma", .ok (some "unused")⟩]) = "Alpha Gamma" :=
  ⟨⟨by decide, by decide, by decide, by decide, by decide⟩,
    ((C8_ocr_failure_isolated ⟨some "Alpha", .ok none⟩
        ⟨some "  ", .error "ocr boom"⟩ ⟨some "Gamma", .ok (some "unused")⟩
        "ocr boom" (by decide) (by decide) rfl (by decide)).2
      (by decide) (by decide)).trans (by decide)⟩

/-- C9 counterexample: `clean_text` is not idempotent.  On `*(cid:5)*` the
first pass removes the glyph-id artifact and thereby creates a `**` pair,
which only the second pass removes: `clean_text "*(cid:5)*" = "**"` but
`clean_text "**" = ""`. -/
theorem C9_counterexample :
    clean_text (clean_text "*(cid:5)*") ≠ clean_text "*(cid:5)*" := by decide

/-- C9 (amended): text normalization is idempotent on every string whose
normalized form is a fixed point of the two marker-removal passes (the `**`
removal and the `(cid:<digits>)` removal); in general a removal pass can
create a new marker that only a second normalization removes. -/
theorem C9_clean_text_idem_of_marker_fixed (s : String)
    (h1 : removeStars (clean_text s).data = (clean_text s).data)
    (h2 : removeCid (clean_text s).data = (clean_text s).data) :
    clean_text (clean_text s) = clean_text s := by
  show (⟨cleanChars (cleanChars s.data)⟩ : String) = ⟨cleanChars s.data⟩
  exact congrArg String.mk (cleanChars_fixed s.data h1 h2)

/-- C9 witness: the amended idempotence applied to the concrete string
`a  b`. -/
theorem C9_witness :
    (removeStars (clean_text "a  b").data = (clean_text "a  b").data ∧
      removeCid (clean_text "a  b").data = (clean_text "a  b").data) ∧
    clean_text (clean_text "a  b") = clean_text "a  b" :=
  ⟨⟨by decide, by decide⟩,
    C9_clean_text_idem_of_marker_fixed "a  b" (by decide) (by decide)⟩

/-- C10: for the Water category the source-text fallback never fires: the
extracted field map does not depend on the source document text at all. -/
theorem C10_water_ignores_source_text (summary : String) (t1 t2 : Option String) :
    store_bill_details summary "water" t1 = store_bill_details summary "water" t2 := by
  unfold store_bill_details
  rw [if_pos (Or.inr rfl), if_pos (Or.inr rfl)]
  unfold applyFallback
  rw [if_neg (fun h => absurd h.1 (by decide)),
    if_neg (fun h => absurd h.1 (by decide))]

/-- C1 counterexample: a model-call failure does not abort the pipeline.
With a present API key and the electricity category, an upload whose model
call raises still succeeds (the redirect is returned, not an error), and
`store_bill_details` is reached with the `"Error generating content: …"`
summary and produces a record. -/
theorem C1_counterexample :
    (upload_pdf (.ok []) (some "k") "electricity" (.error "boom")).isOk = true ∧
    (store_bill_details "Error generating content: boom" "electricity"
        (some "")).isSome = true :=
  ⟨by decide, by decide⟩

/-- C1 (amended): when the model call raises, `generate_summary` catches the
exception and returns the `"Error generating content: …"` string as the
summary; the pipeline continues, `store_bill_details` runs on that summary,
and the caller receives the success redirect together with the stored
record. -/
theorem C1_model_error_still_persists (doc : Except String (List Page))
    (key e billType : String) (hk : key ≠ "")
    (hb : billType = "electricity" ∨ billType = "water") :
    upload_pdf doc (some key) billType (.error e) =
      .ok (storeMap ("Error generating content: " ++ e) billType
        (some (extract_text_from_pdf doc)), redirectURL) := by
  have hs : store_bill_details ("Error generating content: " ++ e) billType
      (some (extract_text_from_pdf doc)) =
      some (applyFallback billType (some (extract_text_from_pdf doc))
        (extractLoop (findallPairs ("Error generating content: " ++ e))
          (initMap (schemaKeys billType)))) := by
    unfold store_bill_details
    rw [if_pos hb]
  simp only [upload_pdf, generate_summary, if_neg hk, if_pos hb]
  rw [hs]
  unfold storeMap
  rw [hs]
  rfl

/-- C1 witness: the amended statement at a concrete failing upload. -/
theorem C1_witness :
    ("k" ≠ "" ∧ ("electricity" = "electricity" ∨ "electricity" = "water")) ∧
    upload_pdf (.ok []) (some "k") "electricity" (.error "boom") =
      .ok (storeMap ("Error generating content: " ++ "boom") "electricity"
        (some (extract_text_from_pdf (.ok []))), redirectURL) :=
  ⟨⟨by decide, Or.inl rfl⟩,
    C1_model_error_still_persists (.ok []) "k" "boom" "electricity"
      (by decide) (Or.inl rfl)⟩

/-- C3: the extraction loop stores the value of an
`Average Daily Consumption:` line under the canonicalized key
`average_daily_consumption`, which is not the schema key
`avg_daily_consumption`; the schema key keeps the sentinel, so the extracted
value is lost (never read by the insert). -/
theorem C3_avg_daily_consumption_lost :
    storeMap "Average Daily Consumption: 12 kWh" "electricity" none
        "avg_daily_consumption" = some "Not provided" ∧
    storeMap "Average Daily Consumption: 12 kWh" "electricity" none
        "average_daily_consumption" = some "12 kWh" :=
  ⟨by decide, by decide⟩

/-- C5 counterexample: a blank line mid-completion does not terminate a
value.  Without `re.MULTILINE` the `\n\s*$` lookahead branch only fires at
the end of the string, so for `Name: John\n\nmore text` the whole remainder
(blank line included) becomes the value of `name`. -/
theorem C5_counterexample :
    storeMap "Name: John\n\nmore text" "electricity" none "name" =
        some "John more text" ∧
    storeMap "Name: John\n\nmore text" "electricity" none "name" ≠
        some "John" :=
  ⟨by decide, by decide⟩

/-- C5 (amended): the captured value of a matched label is the shortest
non-empty prefix of the remaining text after which the regex lookahead
holds, where the lookahead holds exactly at: end of text, or a newline whose
next non-whitespace character (possibly skipping blank lines) is a bullet,
or a newline followed only by whitespace up to the end of text.  A blank
line alone does not terminate a value. -/
theorem C5_value_terminators (s : List Char) (h : s ≠ []) :
    (takeValue s).1 ≠ [] ∧
    (takeValue s).1 ++ (takeValue s).2 = s ∧
    lookaheadOk (takeValue s).2 = true ∧
    (∀ v r, v ++ r = s → v ≠ [] → lookaheadOk r = true →
      (takeValue s).1.length ≤ v.length) := by
  induction s with
  | nil => cases h rfl
  | cons c cs ih =>
    by_cases hla : lookaheadOk cs = true
    · simp only [takeValue, if_pos hla]
      refine ⟨by simp, rfl, hla, ?_⟩
      intro v r _ hv _
      simpa using List.length_pos.mpr hv
    · have hcs : cs ≠ [] := by
        intro he; subst he; exact hla rfl
      obtain ⟨ihne, ihapp, ihla, ihmin⟩ := ih hcs
      simp only [takeValue, if_neg hla]
      refine ⟨by simp, by simp [ihapp], ihla, ?_⟩
      intro v r happ hv hr
      match v, happ with
      | a :: v', happ =>
        simp only [List.cons_append, List.cons.injEq] at happ
        obtain ⟨rfl, happ'⟩ := happ
        have hv' : v' ≠ [] := by
          intro he
          subst he
          simp only [List.nil_append] at happ'
          subst happ'
          exact hla hr
        simpa using ihmin v' r happ' hv' hr

/-- C5 witness: the value grammar applied to the concrete remainder
`John\n\nmore text` (everything after `Name: `). -/
theorem C5_witness :
    ("John\n\nmore text".data ≠ []) ∧
    ((takeValue "John\n\nmore text".data).1 ≠ [] ∧
      (takeValue "John\n\nmore text".data).1 ++
        (takeValue "John\n\nmore text".data).2 = "John\n\nmore text".data ∧
      lookaheadOk (takeValue "John\n\nmore text".data).2 = true ∧
      (∀ v r, v ++ r = "John\n\nmore text".data → v ≠ [] →
        lookaheadOk r = true →
        (takeValue "John\n\nmore text".data).1.length ≤ v.length)) :=
  ⟨by decide, C5_value_terminators "John\n\nmore text".data (by decide)⟩

/-- C7: on the empty completion every schema key of the category holds the
sentinel, provided the fallback has no date-range matches to recover (no
source text, or source text without matches). -/
theorem C7_empty_completion_all_sentinel (billType : String)
    (pdfText : Option String) (k : String)
    (hb : billType = "electricity" ∨ billType = "water")
    (hfb : ∀ t, pdfText = some t → historyMatches t = [])
    (hk : k ∈ schemaKeys billType) :
    storeMap "" billType pdfText k = some sentinel := by
  have h0 : findallPairs "" = [] := by decide
  unfold storeMap store_bill_details
  rw [if_pos hb, h0]
  show applyFallback billType pdfText
      (extractLoop [] (initMap (schemaKeys billType))) k = some sentinel
  have hinit : initMap (schemaKeys billType) k = some sentinel := by
    unfold initMap
    rw [if_pos hk]
  show applyFallback billType pdfText (initMap (schemaKeys billType)) k =
    some sentinel
  unfold applyFallback
  by_cases hcond : billType = "electricity" ∧
      initMap (schemaKeys billType) "consumption_history" = some sentinel ∧
      pdfTruthy pdfText = true
  · rw [if_pos hcond]
    match pdfText, hcond.2.2 with
    | some t, _ =>
      have : historyMatches t = [] := hfb t rfl
      simp only [Option.getD_some]
      rw [if_pos this]
      exact hinit
  · rw [if_neg hcond]
    exact hinit

/-- C2 counterexample: the electricity schema of the code does not include
`challenges` — after extracting the empty completion the field map has no
`challenges` key at all, while `peak_usage_hours` (absent from the claimed
17-key list) is initialised. -/
theorem C2_counterexample :
    storeMap "" "electricity" none "challenges" = none ∧
    "challenges" ∉ electricityKeys ∧ "peak_usage_hours" ∈ electricityKeys :=
  ⟨by decide, by decide, by decide⟩

/-- C2 (amended): for both bill types, every key of the category's schema as
initialised by the code (for electricity the 17 keys including
`peak_usage_hours` and excluding `challenges`) is present in the resulting
field map after extraction, whatever the completion and source text. -/
theorem C2_schema_keys_present (summary billType : String)
    (pdfText : Option String) (k : String)
    (hb : billType = "electricity" ∨ billType = "water")
    (hk : k ∈ schemaKeys billType) :
    (storeMap summary billType pdfText k).isSome = true := by
  unfold storeMap store_bill_details
  rw [if_pos hb]
  show ((applyFallback billType pdfText
    (extractLoop (findallPairs summary) (initMap (schemaKeys billType))))
      k).isSome = true
  apply isSome_applyFallback
  apply isSome_extractLoop
  unfold initMap
  rw [if_pos hk]
  rfl

/-- C2 witness: `peak_usage_hours` is present after extracting a concrete
electricity completion. -/
theorem C2_witness :
    (("electricity" = "electricity" ∨ "electricity" = "water") ∧
      "peak_usage_hours" ∈ schemaKeys "electricity") ∧
    (storeMap "Name: John" "electricity" none "peak_usage_hours").isSome =
      true :=
  ⟨⟨Or.inl rfl, by decide⟩,
    C2_schema_keys_present "Name: John" "electricity" none "peak_usage_hours"
      (Or.inl rfl) (by decide)⟩

/-- C4 counterexample: a label outside the category's schema is not
discarded — an `Address:` line in a Water completion adds an `address` key
to the field map even though `address` is not a water schema key. -/
theorem C4_counterexample :
    storeMap "Address: 1 Main St" "water" none "address" =
        some "1 Main St" ∧
    "address" ∉ waterKeys :=
  ⟨by decide, by decide⟩

/-- C4 (amended): matched labels whose canonicalized form is outside the
category's schema are still written into the field map (the insert later
ignores them); but nothing else ever appears: every key present in the
extracted map is either a schema key of the category or the canonicalized
form of one of the fixed label alternatives (including the special-cased
`consumption_history` target). -/
theorem C4_extracted_keys_bounded (summary billType : String)
    (pdfText : Option String) (k : String)
    (hb : billType = "electricity" ∨ billType = "water")
    (h : storeMap summary billType pdfText k ≠ none) :
    k ∈ schemaKeys billType ∨ k ∈ canonLabelKeys := by
  unfold storeMap store_bill_details at h
  rw [if_pos hb] at h
  simp only [Option.getD_some] at h
  rcases applyFallback_ne_none _ _ _ _ h with h1 | h1
  · rcases extractLoop_ne_none _ _ _ h1 with h2 | ⟨fv, hm, hk⟩
    · exact Or.inl (initMap_ne_none _ _ h2)
    · right
      rcases hk with hk | hk
      · obtain ⟨lit, hl, hlow⟩ := findallPairs_fields _ _ hm
        unfold canonLabelKeys
        apply List.mem_append_left
        apply List.mem_map.mpr
        refine ⟨lit, hl, ?_⟩
        rw [hk]
        exact (canonKey_eq_of_lower_eq _ _ hlow).symm
      · unfold canonLabelKeys
        apply List.mem_append_right
        rw [hk]
        exact List.mem_singleton.mpr rfl
  · unfold canonLabelKeys
    apply Or.inr
    apply List.mem_append_right
    rw [h1]
    exact List.mem_singleton.mpr rfl

/-- C4 witness: the bound applied to the out-of-schema key `address`
extracted from a Water completion. -/
theorem C4_witness :
    (("water" = "electricity" ∨ "water" = "water") ∧
      storeMap "Address: 1 Main St" "water" none "address" ≠ none) ∧
    ("address" ∈ schemaKeys "water" ∨ "address" ∈ canonLabelKeys) :=
  ⟨⟨Or.inr rfl, by decide⟩,
    C4_extracted_keys_bounded "Address: 1 Main St" "water" none "address"
      (Or.inr rfl) (by decide)⟩

/-- C6: for Electricity, when label extraction leaves `consumption_history`
at the sentinel and the source document text has at least one
`DD-MM-YYYY to DD-MM-YYYY: N units` match, the fallback sets
`consumption_history` to the matches rendered `range: N units` joined with
`"; "`. -/
theorem C6_fallback_recovers_history (summary pdfText : String)
    (hch : extractLoop (findallPairs summary) (initMap electricityKeys)
        "consumption_history" = some sentinel)
    (hne : pdfText ≠ "")
    (hm : historyMatches pdfText ≠ []) :
    storeMap summary "electricity" (some pdfText) "consumption_history" =
      some (joinHist (historyMatches pdfText)) := by
  unfold storeMap store_bill_details
  rw [if_pos (Or.inl rfl)]
  simp only [Option.getD_some]
  have hsk : schemaKeys "electricity" = electricityKeys := rfl
  have htr : pdfTruthy (some pdfText) = true := by
    simp [pdfTruthy, hne]
  have hch' : extractLoop (findallPairs summary)
      (initMap (schemaKeys "electricity")) "consumption_history" =
      some sentinel := by
    rw [hsk]; exact hch
  unfold applyFallback
  rw [if_pos ⟨rfl, hch', htr⟩]
  simp only [Option.getD_some]
  rw [if_neg hm]
  unfold updateMap
  rw [if_pos rfl, if_neg (joinHist_ne_empty _ hm)]

/-- C6 witness: the fallback at the concrete completion
`Consumption History: Not found` and the source text
`01-01-2025 to 31-01-2025: 500 units` recovers exactly that string. -/
theorem C6_witness :
    (extractLoop (findallPairs "Consumption History: Not found")
        (initMap electricityKeys) "consumption_history" = some sentinel ∧
      ("01-01-2025 to 31-01-2025: 500 units" : String) ≠ "" ∧
      historyMatches "01-01-2025 to 31-01-2025: 500 units" ≠ []) ∧
    storeMap "Consumption History: Not found" "electricity"
        (some "01-01-2025 to 31-01-2025: 500 units") "consumption_history" =
      some "01-01-2025 to 31-01-2025: 500 units" :=
  ⟨⟨by decide, by decide, by decide⟩,
    (C6_fallback_recovers_history "Consumption History: Not found"
      "01-01-2025 to 31-01-2025: 500 units" (by decide) (by decide)
      (by decide)).trans (by decide)⟩

/-- C7 witness: the empty electricity completion with no source text leaves
`name` at the sentinel. -/
theorem C7_witness :
    (("electricity" = "electricity" ∨ "electricity" = "water") ∧
      "name" ∈ schemaKeys "electricity") ∧
    storeMap "" "electricity" none "name" = some sentinel :=
  ⟨⟨Or.inl rfl, by decide⟩,
    C7_empty_completion_all_sentinel "electricity" none "name" (Or.inl rfl)
      (fun _ h => Option.noConfusion h) (by decide)⟩

end BillUpload
